import Mathlib

/-!
Verification of the DeFiWallet peer-to-peer network core and wallet service.

The development shallowly embeds the Rust sources:
  * `src/network/mod.rs` — `NetworkMessage`, `handle_floodsub_event`,
    `handle_mdns_event`, `handle_network_message`, the `run` event loop;
  * `src/wallet/mod.rs` — `encrypt_private_key`, `generate_address`,
    `create_wallet`;
  * `src/core/mod.rs` — `AppState`, `update_state`.
Pure functions become Lean functions; the stateful handlers become explicit
state-passing functions returning `Except` (mirroring `anyhow::Result`).
The flood/deduplication behaviour of the pubsub layer and the `publish`
operation are provided by the external `libp2p` crate, not by this
repository; those are modelled from the specification and are marked as
such in their doc comments.
-/

/-- Peer identifiers are opaque and compared by equality only; we embed them
as natural numbers. -/
abbrev PeerId : Type := Nat

/-- Raw wire bytes. -/
abbrev Bytes : Type := List UInt8

/-- An IEEE-754 binary64 value (`f64`): a finite double, identified exactly
by its 64-bit pattern, an infinity, or a NaN.  Equality of bit patterns is
exact value equality for finite doubles; the finite/non-finite split is
what the wire format below depends on. -/
inductive F64 where
  | finite (bits : Nat)
  | inf (negative : Bool)
  | nan
deriving DecidableEq

/-- The application-level wire payload of `src/network/mod.rs` lines 18-33:
three variants with primitive/string fields. `f64` fields are embedded as
`F64`. -/
inductive NetworkMessage where
  | WalletUpdate (address : String) (balance : F64)
  | Transaction (from_ : String) (to_ : String) (amount : F64) (chain_type : String)
  | PeerDiscovery (peers : List String)

/-- JSON values, the serde data model that `serde_json::to_vec` /
`serde_json::from_slice` read and write.  A JSON number backed by a double
(`serde_json::Number`) can hold only a finite double, identified here by
its bit pattern; non-finite doubles have no JSON number form. -/
inductive Json where
  | null
  | bool (b : Bool)
  | num (bits : Nat)
  | str (s : String)
  | arr (elems : List Json)
  | obj (fields : List (String × Json))

/-- serde_json's `f64` serialization
(`serde_json::Serializer::serialize_f64`): a finite double becomes a JSON
number; NaN and the infinities are written as `null`. -/
def f64_to_json : F64 → Json
  | .finite bits => .num bits
  | .inf _ => .null
  | .nan => .null

/-- Externally-tagged serialization of `NetworkMessage`, as produced by the
derived `Serialize` instance: `{"Variant": {"field": value, ...}}`. -/
def serialize_network_message : NetworkMessage → Json
  | .WalletUpdate address balance =>
      .obj [("WalletUpdate", .obj [("address", .str address),
                                   ("balance", f64_to_json balance)])]
  | .Transaction from_ to_ amount chain_type =>
      .obj [("Transaction", .obj [("from", .str from_), ("to", .str to_),
                                  ("amount", f64_to_json amount),
                                  ("chain_type", .str chain_type)])]
  | .PeerDiscovery peers =>
      .obj [("PeerDiscovery", .obj [("peers", .arr (peers.map .str))])]

def json_as_str : Json → Option String
  | .str s => some s
  | _ => none

/-- serde_json's `f64` deserialization: only a JSON number yields a double;
`null` (and every other shape) fails. -/
def json_as_f64 : Json → Option F64
  | .num bits => some (.finite bits)
  | _ => none

def json_as_str_list : List Json → Option (List String)
  | [] => some []
  | .str s :: rest => (json_as_str_list rest).map (s :: ·)
  | _ => none

/-- Field lookup in a JSON object, by name. -/
def json_field (fields : List (String × Json)) (key : String) : Option Json :=
  match fields with
  | [] => none
  | (k, v) :: rest => if k = key then some v else json_field rest key

/-- Externally-tagged deserialization of `NetworkMessage`, as performed by the
derived `Deserialize` instance: a single-entry object whose key selects the
variant and whose value holds the named fields. -/
def deserialize_network_message : Json → Option NetworkMessage
  | .obj [("WalletUpdate", .obj fields)] => do
      let address ← (json_field fields "address").bind json_as_str
      let balance ← (json_field fields "balance").bind json_as_f64
      some (.WalletUpdate address balance)
  | .obj [("Transaction", .obj fields)] => do
      let from_ ← (json_field fields "from").bind json_as_str
      let to_ ← (json_field fields "to").bind json_as_str
      let amount ← (json_field fields "amount").bind json_as_f64
      let chain_type ← (json_field fields "chain_type").bind json_as_str
      some (.Transaction from_ to_ amount chain_type)
  | .obj [("PeerDiscovery", .obj fields)] => do
      let elems ← match json_field fields "peers" with
                  | some (.arr elems) => some elems
                  | _ => none
      let peers ← json_as_str_list elems
      some (.PeerDiscovery peers)
  | _ => none

/-- The `f64` value is finite, i.e. representable as a JSON number. -/
def f64_is_finite : F64 → Bool
  | .finite _ => true
  | _ => false

/-- Every `f64` field of the message is finite. -/
def network_message_finite : NetworkMessage → Bool
  | .WalletUpdate _ balance => f64_is_finite balance
  | .Transaction _ _ amount _ => f64_is_finite amount
  | .PeerDiscovery _ => true

/-- `AppState` from `src/core/mod.rs` lines 45-50. -/
structure AppState where
  connected_peers : Nat
  active_wallets : Nat
  pending_transactions : Nat
deriving DecidableEq

/-- `App::update_state` (`src/core/mod.rs` lines 75-81): takes the state
write lock and applies the closure. -/
def update_state (f : AppState → AppState) (state : AppState) : AppState :=
  f state

/-- `Network::handle_network_message` (`src/network/mod.rs` lines 162-178).
The `WalletUpdate` arm calls `app.update_state` with a closure whose body is
empty; the `Transaction` and `PeerDiscovery` arms contain only comments.
Every arm returns `Ok(())`. -/
def handle_network_message (message : NetworkMessage) (state : AppState) :
    Except String AppState :=
  match message with
  | .WalletUpdate _ _ => .ok (update_state (fun s => s) state)
  | .Transaction _ _ _ _ => .ok state
  | .PeerDiscovery _ => .ok state

/-- A floodsub delivery, mirroring `libp2p::floodsub::FloodsubMessage`. -/
structure FloodsubMessage where
  source : PeerId
  data : Bytes
  topics : List String

/-- `libp2p::floodsub::FloodsubEvent`. -/
inductive FloodsubEvent where
  | Message (message : FloodsubMessage)
  | Subscribed (peer_id : PeerId) (topic : String)
  | Unsubscribed (peer_id : PeerId) (topic : String)

/-- `Network::handle_floodsub_event` (`src/network/mod.rs` lines 132-142):
on `Message`, try to deserialize the raw bytes (`serde_json::from_slice`,
embedded as the fallible `deserialize` parameter); on success dispatch the
decoded message, on failure fall through silently; every other event is
ignored.  Every path returns `Ok`. -/
def handle_floodsub_event (deserialize : Bytes → Option NetworkMessage)
    (event : FloodsubEvent) (state : AppState) : Except String AppState :=
  match event with
  | .Message message =>
      match deserialize message.data with
      | some network_message => handle_network_message network_message state
      | none => .ok state
  | _ => .ok state

/-- The network-side state touched by `handle_mdns_event`: the mdns
behaviour's current node list (`mdns.has_node`), the transport's
live-connection set (present in the swarm, never consulted by the handler),
the floodsub subscriptions and the floodsub partial view
(`target_peers`). -/
structure NetworkState where
  mdns_nodes : List PeerId
  connections : List PeerId
  subscribed_topics : List String
  target_peers : List PeerId
deriving DecidableEq

/-- `Floodsub::add_node_to_partial_view`: insert the peer into the flood
target set. -/
def add_node_to_partial_view (p : PeerId) (s : NetworkState) : NetworkState :=
  if p ∈ s.target_peers then s else { s with target_peers := p :: s.target_peers }

/-- `Floodsub::remove_node_from_partial_view`: drop the peer from the flood
target set. -/
def remove_node_from_partial_view (p : PeerId) (s : NetworkState) : NetworkState :=
  { s with target_peers := s.target_peers.filter (fun q => decide (q ≠ p)) }

/-- Modelled from the spec: the per-topic PartialView (§4.4) — floodsub
floods to its target peers on every topic the local node is subscribed to,
so the view of a subscribed topic is the target set and the view of an
unsubscribed topic is empty. -/
def partial_view (s : NetworkState) (topic : String) : List PeerId :=
  if topic ∈ s.subscribed_topics then s.target_peers else []

/-- `libp2p::mdns::MdnsEvent`: lists of (peer, address) pairs. -/
inductive MdnsEvent where
  | Discovered (list : List (PeerId × String))
  | Expired (list : List (PeerId × String))

/-- Body of the `Discovered` loop of `Network::handle_mdns_event`
(`src/network/mod.rs` lines 146-150). -/
def discovered_step (s : NetworkState) (pa : PeerId × String) : NetworkState :=
  add_node_to_partial_view pa.1 s

/-- Body of the `Expired` loop of `Network::handle_mdns_event`
(`src/network/mod.rs` lines 151-157): evict only when
`!self.swarm.behaviour_mut().mdns.has_node(&peer_id)`. -/
def expired_step (s : NetworkState) (pa : PeerId × String) : NetworkState :=
  if pa.1 ∈ s.mdns_nodes then s else remove_node_from_partial_view pa.1 s

/-- The eviction rule exactly as claim C2 words it: evict unless the peer's
liveness is confirmed by the Transport's live-connection set.  This is the
spec's wording, written down to be compared against `expired_step`, which is
what the code does. -/
def expired_step_per_claim (s : NetworkState) (pa : PeerId × String) : NetworkState :=
  if pa.1 ∈ s.connections then s else remove_node_from_partial_view pa.1 s

/-- `Network::handle_mdns_event` (`src/network/mod.rs` lines 144-160). -/
def handle_mdns_event (event : MdnsEvent) (s : NetworkState) :
    Except String NetworkState :=
  match event with
  | .Discovered list => .ok (list.foldl discovered_step s)
  | .Expired list => .ok (list.foldl expired_step s)

/-- Internal command-queue events (`NetworkEvent` in `src/network/mod.rs`
lines 42-46). -/
inductive NetworkEvent where
  | Floodsub (e : FloodsubEvent)
  | Mdns (e : MdnsEvent)

/-- The swarm events that `Network::handle_swarm_event` matches on: behaviour
events and the catch-all `_ => {}` arm (connection lifecycle, listen
addresses, ...). -/
inductive SwarmEvent where
  | Behaviour (e : NetworkEvent)
  | Other

/-- The combined state the event-loop handlers touch. -/
structure LoopState where
  app : AppState
  net : NetworkState

/-- `Network::handle_swarm_event` (`src/network/mod.rs` lines 119-130). -/
def handle_swarm_event (deserialize : Bytes → Option NetworkMessage)
    (event : SwarmEvent) (s : LoopState) : Except String LoopState :=
  match event with
  | .Behaviour (.Floodsub e) =>
      (handle_floodsub_event deserialize e s.app).map (fun a => { s with app := a })
  | .Behaviour (.Mdns e) =>
      (handle_mdns_event e s.net).map (fun n => { s with net := n })
  | .Other => .ok s

/-- `Network::handle_network_event` (`src/network/mod.rs` lines 180-190):
re-injects the queued event into the corresponding behaviour and returns
`Ok(())`; no application state is touched. -/
def handle_network_event (event : NetworkEvent) (s : LoopState) :
    Except String LoopState :=
  match event with
  | .Floodsub _ => .ok s
  | .Mdns _ => .ok s

/-- What one `tokio::select!` iteration of `Network::run` (`src/network/mod.rs`
lines 105-116) can wake up on: `swarm.next()` yielding `None` (the `if let`
skips), a swarm event, or an internal command-queue event. -/
inductive LoopInput where
  | SwarmNone
  | SwarmSome (e : SwarmEvent)
  | Command (e : NetworkEvent)

/-- One iteration of the `loop` in `Network::run`: dispatch the ready input;
an `Err` from a handler would propagate out of `run` via `?` (terminating the
loop and reporting the failure upward), an `Ok` proceeds to another
iteration. -/
def run_iteration (deserialize : Bytes → Option NetworkMessage)
    (input : LoopInput) (s : LoopState) : Except String LoopState :=
  match input with
  | .SwarmNone => .ok s
  | .SwarmSome event => handle_swarm_event deserialize event s
  | .Command event => handle_network_event event s

/-!
The flood/deduplication behaviour of the pubsub layer.  The repository's
`handle_floodsub_event` consumes deliveries that the `libp2p` floodsub
behaviour produces; the flooding, SeenCache deduplication and relay logic
live in that external crate and are modelled here from the specification
(§4.5): on receipt of a frame, a message whose identifier is already in the
SeenCache is discarded silently; otherwise the identifier is inserted, one
delivery event is surfaced, and the frame is re-flooded to every peer in the
topic's partial view except the sender.  We track the propagation of a
single published message, so the SeenCache is represented by the set of
peers whose cache already holds that message's identifier.
-/

/-- A frame in flight: (sender, receiver). -/
abbrev Frame : Type := PeerId × PeerId

/-- Modelled from the spec: global state of one message's flood.  `seen` is
the set of peers whose SeenCache holds the message identifier; `delivered`
records one entry per delivery event surfaced. -/
structure FloodState where
  seen : List PeerId
  delivered : List PeerId

/-- The flood topology: each peer's partial view for the topic, as a finite
association list. -/
def topic_view (net : List (PeerId × List PeerId)) (p : PeerId) : List PeerId :=
  match net with
  | [] => []
  | (q, vs) :: rest => if p = q then vs else topic_view rest p

/-- Every peer that occurs in some partial view of `net`. -/
def all_targets : List (PeerId × List PeerId) → List PeerId
  | [] => []
  | (_, vs) :: rest => vs ++ all_targets rest

/-- Modelled from the spec: `on_receive(raw_frame)` (§4.5).  If the message
identifier is already in the receiver's SeenCache the frame is discarded
silently — no state change, no delivery event, no re-flood.  Otherwise the
identifier is inserted, one delivery event is surfaced, and the message is
re-flooded to all the receiver's topic peers except the sender. -/
def on_receive (net : List (PeerId × List PeerId)) (sender receiver : PeerId)
    (st : FloodState) : FloodState × List Frame :=
  if receiver ∈ st.seen then (st, [])
  else ({ seen := receiver :: st.seen, delivered := receiver :: st.delivered },
        ((topic_view net receiver).filter (fun q => decide (q ≠ sender))).map
          (fun q => (receiver, q)))

/-- Run the flood to quiescence: process the frame queue one frame at a
time, appending any re-flood frames.  `fuel` bounds the number of steps;
`flood_fuel` below always suffices. -/
def flood_run (net : List (PeerId × List PeerId)) :
    Nat → FloodState → List Frame → FloodState × List Frame
  | 0, st, q => (st, q)
  | _ + 1, st, [] => (st, [])
  | fuel + 1, st, f :: q =>
      let step := on_receive net f.1 f.2 st
      flood_run net fuel step.1 (q ++ step.2)

/-- Weight of the peers that have not yet seen the message: each can cause
at most one delivery plus its own fan-out of re-flood frames. -/
def unseen_weight (net : List (PeerId × List PeerId)) (seen : List PeerId) : Nat :=
  (((all_targets net).filter (fun x => decide (x ∉ seen))).map
    (fun x => (topic_view net x).length + 1)).sum

/-- Termination measure for `flood_run`: pending frames plus the weight of
the unseen peers. -/
def flood_measure (net : List (PeerId × List PeerId)) (st : FloodState)
    (q : List Frame) : Nat :=
  q.length + unseen_weight net st.seen

/-- State right after `publish` at `p`: the publisher has inserted the
message identifier into its own SeenCache; no delivery events yet. -/
def flood_init (p : PeerId) : FloodState := { seen := [p], delivered := [] }

/-- Frames `publish` at `p` sends: one per peer in the publisher's partial
view. -/
def flood_queue (net : List (PeerId × List PeerId)) (p : PeerId) : List Frame :=
  (topic_view net p).map (fun r => (p, r))

/-- Modelled from the spec: `publish` followed by the full flood (§4.5).
The publisher inserts the identifier into its own SeenCache and sends a
frame to every peer in its partial view; the frames are then processed to
quiescence. -/
def flood_publish (net : List (PeerId × List PeerId)) (p : PeerId) : FloodState :=
  (flood_run net (flood_measure net (flood_init p) (flood_queue net p) + 1)
    (flood_init p) (flood_queue net p)).1

/-- `r` is reachable from the publisher `p` along partial-view edges: the
flood graph of the claim. -/
inductive Reaches (net : List (PeerId × List PeerId)) (p : PeerId) : PeerId → Prop where
  | refl : Reaches net p p
  | step : ∀ {q r : PeerId}, Reaches net p q → r ∈ topic_view net q → Reaches net p r

/-- Modelled from the spec: the `publish` error taxonomy (§4.5, §7). -/
inductive PublishError where
  | NoRecipients
  | Serialization
deriving DecidableEq

/-- Modelled from the spec: `publish(topic, payload)` (§4.5) — the
repository itself contains no publish path (the example only mentions a
`broadcast` call in a comment); floodsub's `publish` lives in the external
`libp2p` crate.  Per the spec, publishing to a topic whose partial view is
empty returns a distinguishable no-recipients status; a serialization
failure returns a serialization error; otherwise one frame per view member
is produced.  A total function: it can neither panic nor block. -/
def publish (serialize : NetworkMessage → Option Bytes) (s : NetworkState)
    (topic : String) (message : NetworkMessage) :
    Except PublishError (List (PeerId × Bytes)) :=
  if partial_view s topic = [] then .error .NoRecipients
  else
    match serialize message with
    | none => .error .Serialization
    | some bytes => .ok ((partial_view s topic).map (fun peer => (peer, bytes)))

/-- `ChainType` from `src/wallet/mod.rs` lines 18-23. -/
inductive ChainType where
  | Ethereum
  | Solana
  | Bitcoin
deriving DecidableEq

/-- An ed25519 keypair (`ed25519_dalek::Keypair`): secret and public key
bytes. -/
structure Keypair where
  secret : Bytes
  public : Bytes

/-- `WalletConfig` from `src/core/mod.rs` lines 22-26. -/
structure WalletConfig where
  storage_path : String
  encryption_key : String

/-- `Wallet` from `src/wallet/mod.rs` lines 9-16. -/
structure Wallet where
  address : String
  public_key : Bytes
  encrypted_private_key : Bytes
  chain_type : ChainType
  balance : Float

/-- `WalletService::encrypt_private_key` (`src/wallet/mod.rs` lines 75-79):
a placeholder that returns the private-key bytes unchanged. -/
def encrypt_private_key (private_key : Bytes) (encryption_key : String) :
    Except String Bytes :=
  .ok private_key

/-- Lowercase hexadecimal digit for a value below 16 ('0'-'9', 'a'-'f'). -/
def hex_digit (n : Nat) : Char :=
  if n < 10 then Char.ofNat (48 + n) else Char.ofNat (87 + n)

/-- `hex::encode`: two lowercase hex digits per byte. -/
def hex_encode (bytes : Bytes) : String :=
  String.mk (bytes.foldr
    (fun b acc => hex_digit (b.toNat / 16) :: hex_digit (b.toNat % 16) :: acc) [])

/-- The Bitcoin base58 alphabet used by the `bs58` crate. -/
def bs58_alphabet : List Char :=
  "123456789ABCDEFGHJKLMNPQRSTUVWXYZabcdefghijkmnopqrstuvwxyz".toList

/-- The bytes read as one big-endian number. -/
def bytes_to_nat (bytes : Bytes) : Nat :=
  bytes.foldl (fun acc b => acc * 256 + b.toNat) 0

/-- Base58 digits of `n`, least significant first. -/
def base58_digits (n : Nat) : List Char :=
  if h : n = 0 then []
  else bs58_alphabet.getD (n % 58) '1' :: base58_digits (n / 58)
termination_by n
decreasing_by
  exact Nat.div_lt_self (Nat.pos_of_ne_zero h) (by decide)

/-- `bs58::encode(..).into_string()`: one leading '1' per leading zero byte,
then the big-endian number in base58. -/
def bs58_encode (bytes : Bytes) : String :=
  String.mk ((bytes.takeWhile (fun b => b == 0)).map (fun _ => '1')
    ++ (base58_digits (bytes_to_nat bytes)).reverse)

/-- `WalletService::generate_address` (`src/wallet/mod.rs` lines 81-90):
Ethereum gets `0x` plus the hex of the first 20 public-key bytes, Solana the
base58 of the public key, and Bitcoin the fixed placeholder string. -/
def generate_address (public_key : Bytes) (chain_type : ChainType) : String :=
  match chain_type with
  | .Ethereum => "0x" ++ hex_encode (public_key.take 20)
  | .Solana => bs58_encode public_key
  | .Bitcoin => "btc_address"

/-- `WalletService::create_wallet` (`src/wallet/mod.rs` lines 38-64).  The
freshly generated keypair is passed explicitly (`Keypair::generate` draws
from the thread RNG).  Returns the new wallet together with the updated
wallet list (the service pushes a clone of the wallet) and the updated
application state (`state.active_wallets += 1`). -/
def create_wallet (config : WalletConfig) (keypair : Keypair)
    (chain_type : ChainType) (wallets : List Wallet) (state : AppState) :
    Except String (Wallet × List Wallet × AppState) :=
  match encrypt_private_key keypair.secret config.encryption_key with
  | .error e => .error e
  | .ok encrypted_private_key =>
      let wallet : Wallet :=
        { address := generate_address keypair.public chain_type
          public_key := keypair.public
          encrypted_private_key := encrypted_private_key
          chain_type := chain_type
          balance := 0.0 }
      .ok (wallet, wallets ++ [wallet],
           update_state (fun s => { s with active_wallets := s.active_wallets + 1 }) state)

/-- The inductive invariant of the flood loop: every queued frame's sender
has the message in its SeenCache, and every partial-view neighbour of a
peer that has seen the message has either seen it too or has a frame for it
still queued. -/
def FloodInv (net : List (PeerId × List PeerId)) (st : FloodState)
    (q : List Frame) : Prop :=
  (∀ f ∈ q, f.1 ∈ st.seen) ∧
  (∀ x ∈ st.seen, ∀ y ∈ topic_view net x, y ∈ st.seen ∨ ∃ s, (s, y) ∈ q)

/-- A flood graph with a cycle (0 → 1 → 2 → 0 and back-edges): concrete
topology for the exactly-once witness. -/
def cycle_net : List (PeerId × List PeerId) := [(0, [1]), (1, [2, 0]), (2, [0, 1])]

/-- A concrete SeenCache state used by the exactly-once witness. -/
def cycle_st : FloodState := { seen := [1], delivered := [] }

/-- Concrete network state for the Expired counterexample: peer 7 has a live
transport connection but is no longer listed by mdns. -/
def expired_cx : NetworkState :=
  { mdns_nodes := [], connections := [7],
    subscribed_topics := ["wallet-updates"], target_peers := [7] }

theorem json_as_str_list_map (l : List String) :
    json_as_str_list (l.map Json.str) = some l := by
  induction l with
  | nil => rfl
  | cons a t ih => simp [json_as_str_list, ih]

/-- C4 counterexample: a `WalletUpdate` whose balance is NaN does not
round-trip — serialization writes the balance as `null` (serde_json has no
number form for a non-finite double) and deserialization of that `null`
into an `f64` then fails, so the claim as stated is false at this input. -/
theorem network_message_round_trip_counterexample :
    deserialize_network_message (serialize_network_message
      (NetworkMessage.WalletUpdate "0xabc" F64.nan)) = none :=
  rfl

/-- C4 (amended): for every `NetworkMessage` value of every variant whose
`f64` fields are all finite, serializing it and deserializing the result
succeeds and yields the original value; a message with a non-finite float
field is serialized with `null` in that position and then fails to
deserialize. -/
theorem network_message_round_trip_finite (m : NetworkMessage)
    (h : network_message_finite m = true) :
    deserialize_network_message (serialize_network_message m) = some m := by
  cases m with
  | WalletUpdate address balance =>
      cases balance with
      | finite bits => rfl
      | inf negative => simp [network_message_finite, f64_is_finite] at h
      | nan => simp [network_message_finite, f64_is_finite] at h
  | Transaction from_ to_ amount chain_type =>
      cases amount with
      | finite bits => rfl
      | inf negative => simp [network_message_finite, f64_is_finite] at h
      | nan => simp [network_message_finite, f64_is_finite] at h
  | PeerDiscovery peers =>
      simp [serialize_network_message, deserialize_network_message, json_field,
            json_as_str_list_map]

theorem network_message_round_trip_finite_witness :
    network_message_finite (NetworkMessage.WalletUpdate "0xabc" (F64.finite 0)) = true ∧
    deserialize_network_message (serialize_network_message
        (NetworkMessage.WalletUpdate "0xabc" (F64.finite 0)))
      = some (NetworkMessage.WalletUpdate "0xabc" (F64.finite 0)) :=
  ⟨rfl, network_message_round_trip_finite
    (NetworkMessage.WalletUpdate "0xabc" (F64.finite 0)) rfl⟩

/-- C5: `handle_network_message` is a placeholder — for every decoded
message and every application state, the handler leaves the state unchanged
and invokes no collaborator: the `WalletUpdate` arm passes an empty closure
to `update_state`, the `Transaction` and `PeerDiscovery` arms do nothing. -/
theorem handle_network_message_noop (message : NetworkMessage) (state : AppState) :
    handle_network_message message state = Except.ok state := by
  cases message <;> rfl

/-- C3: an inbound frame whose bytes fail to deserialize is dropped
silently — `handle_floodsub_event` returns success with the state
unchanged, and the event-loop iteration carrying that frame likewise
returns success with the loop state unchanged, so the loop proceeds to the
next event. -/
theorem malformed_frame_dropped (deserialize : Bytes → Option NetworkMessage)
    (message : FloodsubMessage) (state : AppState) (s : LoopState)
    (h : deserialize message.data = none) :
    handle_floodsub_event deserialize (FloodsubEvent.Message message) state
      = Except.ok state ∧
    run_iteration deserialize
      (LoopInput.SwarmSome (SwarmEvent.Behaviour
        (NetworkEvent.Floodsub (FloodsubEvent.Message message)))) s
      = Except.ok s := by
  constructor
  · simp [handle_floodsub_event, h]
  · simp [run_iteration, handle_swarm_event, handle_floodsub_event, h, Except.map]

theorem malformed_frame_dropped_witness :
    (fun _ : Bytes => (none : Option NetworkMessage))
        (FloodsubMessage.mk 3 [0x7b] ["wallet-updates"]).data = none ∧
    (handle_floodsub_event (fun _ => none)
        (FloodsubEvent.Message (FloodsubMessage.mk 3 [0x7b] ["wallet-updates"]))
        (AppState.mk 0 0 0)
      = Except.ok (AppState.mk 0 0 0) ∧
     run_iteration (fun _ => none)
        (LoopInput.SwarmSome (SwarmEvent.Behaviour
          (NetworkEvent.Floodsub (FloodsubEvent.Message
            (FloodsubMessage.mk 3 [0x7b] ["wallet-updates"])))))
        (LoopState.mk (AppState.mk 0 0 0) (NetworkState.mk [] [] [] []))
      = Except.ok (LoopState.mk (AppState.mk 0 0 0) (NetworkState.mk [] [] [] []))) :=
  ⟨rfl, malformed_frame_dropped (fun _ => none)
    (FloodsubMessage.mk 3 [0x7b] ["wallet-updates"]) (AppState.mk 0 0 0)
    (LoopState.mk (AppState.mk 0 0 0) (NetworkState.mk [] [] [] [])) rfl⟩

theorem handle_network_message_ok_helper (message : NetworkMessage) (state : AppState) :
    handle_network_message message state = Except.ok state := by
  cases message <;> rfl

theorem handle_floodsub_event_isOk (deserialize : Bytes → Option NetworkMessage)
    (event : FloodsubEvent) (state : AppState) :
    ∃ a, handle_floodsub_event deserialize event state = Except.ok a := by
  cases event with
  | Message m =>
      refine ⟨state, ?_⟩
      simp only [handle_floodsub_event]
      cases h : deserialize m.data with
      | none => rfl
      | some msg => exact handle_network_message_ok_helper msg state
  | Subscribed p t => exact ⟨state, rfl⟩
  | Unsubscribed p t => exact ⟨state, rfl⟩

/-- C7: no reachable state makes the event-loop body exit — every handler
returns `Ok` on every input, so each iteration proceeds to the next one;
termination could only come from an error propagating upward out of `run`
(the `?` operator), and no handler produces one. -/
theorem event_loop_always_continues (deserialize : Bytes → Option NetworkMessage)
    (input : LoopInput) (s : LoopState) :
    ∃ s', run_iteration deserialize input s = Except.ok s' := by
  cases input with
  | SwarmNone => exact ⟨s, rfl⟩
  | Command e => cases e <;> exact ⟨s, rfl⟩
  | SwarmSome e =>
      cases e with
      | Other => exact ⟨s, rfl⟩
      | Behaviour be =>
          cases be with
          | Floodsub fe =>
              obtain ⟨a, ha⟩ := handle_floodsub_event_isOk deserialize fe s.app
              exact ⟨{ s with app := a },
                by simp [run_iteration, handle_swarm_event, ha, Except.map]⟩
          | Mdns me => cases me <;> exact ⟨_, rfl⟩

/-- C8: publishing on a topic whose partial view is empty returns the
distinguishable no-recipients status (and `publish` is a total function, so
it can neither panic nor block). -/
theorem publish_empty_view_no_recipients (serialize : NetworkMessage → Option Bytes)
    (s : NetworkState) (topic : String) (message : NetworkMessage)
    (h : partial_view s topic = []) :
    publish serialize s topic message = Except.error PublishError.NoRecipients := by
  unfold publish
  rw [if_pos h]

theorem publish_empty_view_no_recipients_witness :
    partial_view (NetworkState.mk [] [] [] []) "wallet-updates" = [] ∧
    publish (fun _ => some []) (NetworkState.mk [] [] [] []) "wallet-updates"
        (NetworkMessage.PeerDiscovery [])
      = Except.error PublishError.NoRecipients :=
  ⟨rfl, publish_empty_view_no_recipients (fun _ => some [])
    (NetworkState.mk [] [] [] []) "wallet-updates"
    (NetworkMessage.PeerDiscovery []) rfl⟩

/-- C9: the wallet's cryptographic operations are placeholders —
`encrypt_private_key` returns the private-key bytes unchanged for every
encryption key, and `generate_address` for `ChainType::Bitcoin` returns the
fixed string. -/
theorem wallet_stubs_placeholder (k : Bytes) (s : String) (pk : Bytes) :
    encrypt_private_key k s = Except.ok k ∧
    generate_address pk ChainType.Bitcoin = "btc_address" :=
  ⟨rfl, rfl⟩

/-- C10: for every chain type, `create_wallet` succeeds and returns a wallet
with balance `0.0` and the generated keypair's public key, appends exactly
that wallet to the stored list (length grows by one, the previously stored
prefix unchanged), and increments `active_wallets` by one while leaving the
other state fields unchanged. -/
theorem create_wallet_effects (config : WalletConfig) (keypair : Keypair)
    (chain_type : ChainType) (wallets : List Wallet) (state : AppState) :
    ∃ w : Wallet,
      create_wallet config keypair chain_type wallets state
        = Except.ok (w, wallets ++ [w],
            { state with active_wallets := state.active_wallets + 1 }) ∧
      w.balance = 0.0 ∧
      w.public_key = keypair.public ∧
      (wallets ++ [w]).length = wallets.length + 1 ∧
      (wallets ++ [w]).take wallets.length = wallets := by
  refine ⟨_, rfl, rfl, rfl, by simp, List.take_left ..⟩

theorem discovered_fold_topics (l : List (PeerId × String)) (s : NetworkState) :
    (l.foldl discovered_step s).subscribed_topics = s.subscribed_topics := by
  induction l generalizing s with
  | nil => rfl
  | cons pa t ih =>
      rw [List.foldl_cons, ih]
      unfold discovered_step add_node_to_partial_view
      split <;> rfl

theorem discovered_fold_mem_preserved (l : List (PeerId × String))
    (s : NetworkState) (p : PeerId) (hp : p ∈ s.target_peers) :
    p ∈ (l.foldl discovered_step s).target_peers := by
  induction l generalizing s with
  | nil => exact hp
  | cons pa t ih =>
      rw [List.foldl_cons]
      apply ih
      unfold discovered_step add_node_to_partial_view
      split
      · exact hp
      · exact List.mem_cons_of_mem _ hp

theorem discovered_fold_mem (l : List (PeerId × String)) (s : NetworkState)
    (p : PeerId) (a : String) (hmem : (p, a) ∈ l) :
    p ∈ (l.foldl discovered_step s).target_peers := by
  induction l generalizing s with
  | nil => cases hmem
  | cons pa t ih =>
      rw [List.foldl_cons]
      rcases List.mem_cons.mp hmem with heq | htail
      · apply discovered_fold_mem_preserved
        subst heq
        unfold discovered_step add_node_to_partial_view
        split
        · next h => exact h
        · exact List.mem_cons_self _ _
      · exact ih (discovered_step s pa) htail

/-- C6: every peer reported by a `Discovered` event is added to the partial
view of every topic the local node is currently subscribed to. -/
theorem discovered_peer_floods_subscribed_topics
    (l : List (PeerId × String)) (s s' : NetworkState) (p : PeerId) (a : String)
    (topic : String) (hmem : (p, a) ∈ l) (htopic : topic ∈ s.subscribed_topics)
    (hrun : handle_mdns_event (MdnsEvent.Discovered l) s = Except.ok s') :
    p ∈ partial_view s' topic := by
  simp only [handle_mdns_event, Except.ok.injEq] at hrun
  subst hrun
  unfold partial_view
  rw [discovered_fold_topics, if_pos htopic]
  exact discovered_fold_mem l s p a hmem

theorem discovered_peer_floods_subscribed_topics_witness :
    ((5, "/ip4/10.0.0.5") ∈ [((5 : PeerId), "/ip4/10.0.0.5")]) ∧
    ("wallet-updates" ∈ (NetworkState.mk [] [] ["wallet-updates"] []).subscribed_topics) ∧
    (handle_mdns_event (MdnsEvent.Discovered [(5, "/ip4/10.0.0.5")])
        (NetworkState.mk [] [] ["wallet-updates"] [])
      = Except.ok (NetworkState.mk [] [] ["wallet-updates"] [5])) ∧
    5 ∈ partial_view (NetworkState.mk [] [] ["wallet-updates"] [5]) "wallet-updates" :=
  ⟨List.mem_cons_self _ _, List.mem_cons_self _ _, rfl,
   discovered_peer_floods_subscribed_topics [(5, "/ip4/10.0.0.5")]
     (NetworkState.mk [] [] ["wallet-updates"] [])
     (NetworkState.mk [] [] ["wallet-updates"] [5]) 5 "/ip4/10.0.0.5"
     "wallet-updates" (List.mem_cons_self _ _) (List.mem_cons_self _ _) rfl⟩

theorem expired_fold_mdns_nodes (l : List (PeerId × String)) (s : NetworkState) :
    (l.foldl expired_step s).mdns_nodes = s.mdns_nodes := by
  induction l generalizing s with
  | nil => rfl
  | cons pa t ih =>
      rw [List.foldl_cons, ih]
      unfold expired_step remove_node_from_partial_view
      split <;> rfl

theorem expired_fold_not_mem_preserved (l : List (PeerId × String))
    (s : NetworkState) (p : PeerId) (hp : p ∉ s.target_peers) :
    p ∉ (l.foldl expired_step s).target_peers := by
  induction l generalizing s with
  | nil => exact hp
  | cons pa t ih =>
      rw [List.foldl_cons]
      apply ih
      unfold expired_step remove_node_from_partial_view
      split
      · exact hp
      · intro hmem
        exact hp (List.mem_of_mem_filter hmem)

theorem expired_fold_evicts (l : List (PeerId × String)) (s : NetworkState)
    (p : PeerId) (a : String) (hmdns : p ∉ s.mdns_nodes) (hmem : (p, a) ∈ l) :
    p ∉ (l.foldl expired_step s).target_peers := by
  induction l generalizing s with
  | nil => cases hmem
  | cons pa t ih =>
      rw [List.foldl_cons]
      rcases List.mem_cons.mp hmem with heq | htail
      · apply expired_fold_not_mem_preserved
        subst heq
        unfold expired_step
        rw [if_neg hmdns]
        unfold remove_node_from_partial_view
        intro hmem'
        have := List.of_mem_filter hmem'
        simp at this
      · refine ih (expired_step s pa) ?_ htail
        unfold expired_step remove_node_from_partial_view
        split <;> exact hmdns

theorem expired_fold_keeps_mdns_listed (l : List (PeerId × String))
    (s : NetworkState) (p : PeerId) (hmdns : p ∈ s.mdns_nodes)
    (hp : p ∈ s.target_peers) :
    p ∈ (l.foldl expired_step s).target_peers := by
  induction l generalizing s with
  | nil => exact hp
  | cons pa t ih =>
      rw [List.foldl_cons]
      apply ih
      · unfold expired_step remove_node_from_partial_view
        split <;> exact hmdns
      · unfold expired_step
        split
        · exact hp
        · next h =>
            unfold remove_node_from_partial_view
            apply List.mem_filter.mpr
            refine ⟨hp, ?_⟩
            simp only [decide_eq_true_eq]
            intro hpq
            subst hpq
            exact h hmdns

/-- C2 counterexample: peer 7 has a live transport connection
(`7 ∈ expired_cx.connections`), so by the claim's eviction rule (checking
the Transport's live-connection set, `expired_step_per_claim`) it must stay
in the partial view; but the code (`handle_mdns_event`, which checks
`mdns.has_node` instead) removes it. -/
theorem expired_transport_check_counterexample :
    7 ∈ expired_cx.connections ∧
    handle_mdns_event (MdnsEvent.Expired [(7, "/ip4/10.0.0.7")]) expired_cx
      = Except.ok { expired_cx with target_peers := [] } ∧
    ([(7, "/ip4/10.0.0.7")].foldl expired_step_per_claim expired_cx).target_peers
      = [7] :=
  ⟨List.mem_cons_self _ _, rfl, rfl⟩

/-- C2 (amended): on `Expired`, a listed peer is removed from every topic's
partial view unless the mdns behaviour still lists the peer
(`mdns.has_node`) — the Transport's connection set is never consulted; in
particular a peer that mdns has dropped (as it has when it emits `Expired`)
is absent from every topic's partial view afterwards, and a peer mdns still
lists keeps its partial-view membership. -/
theorem expired_eviction_by_mdns_check
    (l : List (PeerId × String)) (s s' : NetworkState) (p : PeerId) (a : String)
    (hrun : handle_mdns_event (MdnsEvent.Expired l) s = Except.ok s') :
    ((p, a) ∈ l → p ∉ s.mdns_nodes → ∀ topic, p ∉ partial_view s' topic) ∧
    (p ∈ s.mdns_nodes → p ∈ s.target_peers → p ∈ s'.target_peers) := by
  simp only [handle_mdns_event, Except.ok.injEq] at hrun
  subst hrun
  constructor
  · intro hmem hmdns topic
    unfold partial_view
    split
    · exact expired_fold_evicts l s p a hmdns hmem
    · exact List.not_mem_nil p
  · intro hmdns hp
    exact expired_fold_keeps_mdns_listed l s p hmdns hp

theorem expired_eviction_by_mdns_check_witness :
    (handle_mdns_event (MdnsEvent.Expired [(7, "/ip4/10.0.0.7")]) expired_cx
       = Except.ok { expired_cx with target_peers := [] }) ∧
    (((7, "/ip4/10.0.0.7") ∈ [((7 : PeerId), "/ip4/10.0.0.7")] →
        7 ∉ expired_cx.mdns_nodes →
        ∀ topic, 7 ∉ partial_view { expired_cx with target_peers := [] } topic) ∧
     (7 ∈ expired_cx.mdns_nodes → 7 ∈ expired_cx.target_peers →
        7 ∈ ({ expired_cx with target_peers := ([] : List PeerId) }).target_peers)) :=
  ⟨rfl, expired_eviction_by_mdns_check [(7, "/ip4/10.0.0.7")] expired_cx
    { expired_cx with target_peers := [] } 7 "/ip4/10.0.0.7" rfl⟩

theorem mem_all_targets_of_mem_view (net : List (PeerId × List PeerId))
    (x p : PeerId) (h : x ∈ topic_view net p) : x ∈ all_targets net := by
  induction net with
  | nil => cases h
  | cons e rest ih =>
      obtain ⟨q, vs⟩ := e
      simp only [topic_view] at h
      simp only [all_targets]
      split at h
      · exact List.mem_append_left _ h
      · exact List.mem_append_right _ (ih h)

theorem on_receive_seen_case (net : List (PeerId × List PeerId))
    (sender receiver : PeerId) (st : FloodState) (h : receiver ∈ st.seen) :
    on_receive net sender receiver st = (st, []) := by
  simp [on_receive, h]

theorem on_receive_unseen_case (net : List (PeerId × List PeerId))
    (sender receiver : PeerId) (st : FloodState) (h : receiver ∉ st.seen) :
    on_receive net sender receiver st =
      ({ seen := receiver :: st.seen, delivered := receiver :: st.delivered },
       ((topic_view net receiver).filter (fun q => decide (q ≠ sender))).map
         (fun q => (receiver, q))) := by
  simp [on_receive, h]

theorem flood_run_seen_mono (net : List (PeerId × List PeerId)) :
    ∀ (fuel : Nat) (st : FloodState) (q : List Frame) (x : PeerId),
      x ∈ st.seen → x ∈ (flood_run net fuel st q).1.seen := by
  intro fuel
  induction fuel with
  | zero => intro st q x hx; exact hx
  | succ n ih =>
      intro st q x hx
      cases q with
      | nil => exact hx
      | cons f rest =>
          simp only [flood_run]
          by_cases h : f.2 ∈ st.seen
          · rw [on_receive_seen_case net f.1 f.2 st h]
            exact ih st (rest ++ []) x hx
          · rw [on_receive_unseen_case net f.1 f.2 st h]
            exact ih _ _ x (List.mem_cons_of_mem _ hx)

theorem flood_run_delivered_nodup (net : List (PeerId × List PeerId)) :
    ∀ (fuel : Nat) (st : FloodState) (q : List Frame),
      st.delivered.Nodup → (∀ d ∈ st.delivered, d ∈ st.seen) →
      (flood_run net fuel st q).1.delivered.Nodup ∧
      ∀ d ∈ (flood_run net fuel st q).1.delivered, d ∈ (flood_run net fuel st q).1.seen := by
  intro fuel
  induction fuel with
  | zero => intro st q h1 h2; exact ⟨h1, h2⟩
  | succ n ih =>
      intro st q h1 h2
      cases q with
      | nil => exact ⟨h1, h2⟩
      | cons f rest =>
          simp only [flood_run]
          by_cases h : f.2 ∈ st.seen
          · rw [on_receive_seen_case net f.1 f.2 st h]
            exact ih st (rest ++ []) h1 h2
          · rw [on_receive_unseen_case net f.1 f.2 st h]
            apply ih
            · exact List.nodup_cons.mpr ⟨fun hd => h (h2 _ hd), h1⟩
            · intro d hd
              rcases List.mem_cons.mp hd with rfl | hd'
              · exact List.mem_cons_self _ _
              · exact List.mem_cons_of_mem _ (h2 _ hd')

theorem flood_run_seen_iff (net : List (PeerId × List PeerId)) (p : PeerId) :
    ∀ (fuel : Nat) (st : FloodState) (q : List Frame),
      (∀ x : PeerId, x ∈ st.seen ↔ x ∈ st.delivered ∨ x = p) →
      ∀ x : PeerId,
        x ∈ (flood_run net fuel st q).1.seen ↔
        x ∈ (flood_run net fuel st q).1.delivered ∨ x = p := by
  intro fuel
  induction fuel with
  | zero => intro st q hiff; exact hiff
  | succ n ih =>
      intro st q hiff
      cases q with
      | nil => exact hiff
      | cons f rest =>
          simp only [flood_run]
          by_cases h : f.2 ∈ st.seen
          · rw [on_receive_seen_case net f.1 f.2 st h]
            exact ih st (rest ++ []) hiff
          · rw [on_receive_unseen_case net f.1 f.2 st h]
            apply ih
            intro x
            simp only [List.mem_cons]
            have := hiff x
            tauto

theorem flood_run_closure (net : List (PeerId × List PeerId)) :
    ∀ (fuel : Nat) (st : FloodState) (q : List Frame),
      FloodInv net st q →
      FloodInv net (flood_run net fuel st q).1 (flood_run net fuel st q).2 := by
  intro fuel
  induction fuel with
  | zero => intro st q h; exact h
  | succ n ih =>
      intro st q h
      obtain ⟨hsend, hclose⟩ := h
      cases q with
      | nil => exact ⟨fun f hf => absurd hf (List.not_mem_nil f), fun x hx y hy =>
          (hclose x hx y hy).imp id id⟩
      | cons f rest =>
          simp only [flood_run]
          by_cases h : f.2 ∈ st.seen
          · rw [on_receive_seen_case net f.1 f.2 st h]
            apply ih
            constructor
            · intro g hg
              exact hsend g (List.mem_cons_of_mem _ (by simpa using hg))
            · intro x hx y hy
              rcases hclose x hx y hy with hseen | ⟨s, hs⟩
              · exact Or.inl hseen
              · rcases List.mem_cons.mp hs with heq | htail
                · refine Or.inl ?_
                  have : y = f.2 := by have := congrArg Prod.snd heq; simpa using this
                  rw [this]; exact h
                · exact Or.inr ⟨s, by simpa using htail⟩
          · rw [on_receive_unseen_case net f.1 f.2 st h]
            apply ih
            constructor
            · intro g hg
              rcases List.mem_append.mp hg with hrest | hnew
              · exact List.mem_cons_of_mem _ (hsend g (List.mem_cons_of_mem _ hrest))
              · obtain ⟨y, hy, rfl⟩ := List.mem_map.mp hnew
                exact List.mem_cons_self _ _
            · intro x hx y hy
              rcases List.mem_cons.mp hx with rfl | hxseen
              · by_cases hys : y = f.1
                · refine Or.inl (List.mem_cons_of_mem _ ?_)
                  rw [hys]
                  exact hsend f (List.mem_cons_self _ _)
                · refine Or.inr ⟨f.2, List.mem_append_right _ ?_⟩
                  exact List.mem_map.mpr ⟨y, List.mem_filter.mpr
                    ⟨hy, by simpa using hys⟩, rfl⟩
              · rcases hclose x hxseen y hy with hseen | ⟨s, hs⟩
                · exact Or.inl (List.mem_cons_of_mem _ hseen)
                · rcases List.mem_cons.mp hs with heq | htail
                  · refine Or.inl ?_
                    have : y = f.2 := by have := congrArg Prod.snd heq; simpa using this
                    rw [this]; exact List.mem_cons_self _ _
                  · exact Or.inr ⟨s, List.mem_append_left _ htail⟩

theorem weight_filter_mono (wf : PeerId → Nat) :
    ∀ (l : List PeerId) (P Q : PeerId → Bool), (∀ x, Q x = true → P x = true) →
      ((l.filter Q).map wf).sum ≤ ((l.filter P).map wf).sum := by
  intro l
  induction l with
  | nil => intro P Q _; exact Nat.le_refl 0
  | cons a t ih =>
      intro P Q hPQ
      simp only [List.filter_cons]
      cases hQ : Q a with
      | true =>
          rw [hPQ a hQ]
          simpa using Nat.add_le_add_left (ih P Q hPQ) (wf a)
      | false =>
          cases hP : P a with
          | true =>
              simp only [if_true]
              refine Nat.le_trans (ih P Q hPQ) ?_
              simp [Nat.le_add_left]
          | false => exact ih P Q hPQ

theorem weight_drop_aux (net : List (PeerId × List PeerId)) (seen : List PeerId)
    (r : PeerId) (hnot : r ∉ seen) :
    ∀ l : List PeerId, r ∈ l →
      (((l.filter (fun x => decide (x ∉ r :: seen))).map
          (fun x => (topic_view net x).length + 1)).sum
        + ((topic_view net r).length + 1))
      ≤ ((l.filter (fun x => decide (x ∉ seen))).map
          (fun x => (topic_view net x).length + 1)).sum := by
  intro l
  induction l with
  | nil => intro h; cases h
  | cons a t ih =>
      intro hmem
      simp only [List.filter_cons]
      by_cases har : a = r
      · subst har
        have hQ : ¬ ((decide (a ∉ a :: seen)) = true) := by simp
        have hP : (decide (a ∉ seen)) = true := by simpa using hnot
        rw [if_neg hQ, if_pos hP]
        simp only [List.map_cons, List.sum_cons]
        have hmono := weight_filter_mono (fun x => (topic_view net x).length + 1) t
          (fun x => decide (x ∉ seen)) (fun x => decide (x ∉ a :: seen))
          (fun x hx => by
            simp only [decide_eq_true_eq] at hx ⊢
            exact fun hm => hx (List.mem_cons_of_mem _ hm))
        omega
      · by_cases ha : a ∈ seen
        · have hQ : ¬ ((decide (a ∉ r :: seen)) = true) := by
            simp [List.mem_cons, ha]
          have hP : ¬ ((decide (a ∉ seen)) = true) := by simp [ha]
          rw [if_neg hQ, if_neg hP]
          exact ih (List.mem_of_ne_of_mem (fun h => har h.symm) hmem)
        · have hQ : (decide (a ∉ r :: seen)) = true := by
            simp [List.mem_cons, ha, har]
          have hP : (decide (a ∉ seen)) = true := by simp [ha]
          rw [if_pos hQ, if_pos hP]
          simp only [List.map_cons, List.sum_cons]
          have := ih (List.mem_of_ne_of_mem (fun h => har h.symm) hmem)
          omega

theorem unseen_weight_drop (net : List (PeerId × List PeerId))
    (seen : List PeerId) (r : PeerId) (hr : r ∈ all_targets net)
    (hnot : r ∉ seen) :
    unseen_weight net (r :: seen) + ((topic_view net r).length + 1)
      ≤ unseen_weight net seen :=
  weight_drop_aux net seen r hnot (all_targets net) hr

theorem flood_run_drain (net : List (PeerId × List PeerId)) :
    ∀ (fuel : Nat) (st : FloodState) (q : List Frame),
      (∀ f ∈ q, f.2 ∈ all_targets net) →
      flood_measure net st q < fuel →
      (flood_run net fuel st q).2 = [] := by
  intro fuel
  induction fuel with
  | zero => intro st q _ hm; cases Nat.not_lt_zero _ hm
  | succ n ih =>
      intro st q hq hm
      cases q with
      | nil => rfl
      | cons f rest =>
          simp only [flood_run]
          by_cases h : f.2 ∈ st.seen
          · rw [on_receive_seen_case net f.1 f.2 st h]
            apply ih
            · intro g hg
              exact hq g (List.mem_cons_of_mem _ (by simpa using hg))
            · unfold flood_measure at hm ⊢
              simp only [List.length_cons] at hm
              simp only [List.append_nil]
              omega
          · rw [on_receive_unseen_case net f.1 f.2 st h]
            apply ih
            · intro g hg
              rcases List.mem_append.mp hg with hrest | hnew
              · exact hq g (List.mem_cons_of_mem _ hrest)
              · obtain ⟨y, hy, rfl⟩ := List.mem_map.mp hnew
                exact mem_all_targets_of_mem_view net y f.2
                  (List.mem_of_mem_filter hy)
            · have hdrop := unseen_weight_drop net st.seen f.2
                (hq f (List.mem_cons_self _ _)) h
              have hlen : (((topic_view net f.2).filter
                  (fun q => decide (q ≠ f.1))).map (fun q => (f.2, q))).length
                  ≤ (topic_view net f.2).length := by
                rw [List.length_map]
                exact List.length_filter_le _ _
              unfold flood_measure at hm ⊢
              simp only [List.length_cons] at hm
              simp only [List.length_append]
              omega

theorem flood_queue_targets (net : List (PeerId × List PeerId)) (p : PeerId) :
    ∀ f ∈ flood_queue net p, f.2 ∈ all_targets net := by
  intro f hf
  obtain ⟨y, hy, rfl⟩ := List.mem_map.mp hf
  exact mem_all_targets_of_mem_view net y p hy

theorem flood_publish_nodup (net : List (PeerId × List PeerId)) (p : PeerId) :
    (flood_publish net p).delivered.Nodup ∧
    ∀ d ∈ (flood_publish net p).delivered, d ∈ (flood_publish net p).seen :=
  flood_run_delivered_nodup net _ (flood_init p) (flood_queue net p)
    List.nodup_nil (by intro d hd; cases hd)

theorem flood_publish_seen_closed (net : List (PeerId × List PeerId)) (p : PeerId) :
    ∀ a ∈ (flood_publish net p).seen, ∀ y ∈ topic_view net a,
      y ∈ (flood_publish net p).seen := by
  have hdrain := flood_run_drain net
    (flood_measure net (flood_init p) (flood_queue net p) + 1)
    (flood_init p) (flood_queue net p) (flood_queue_targets net p)
    (Nat.lt_succ_self _)
  have hinv := flood_run_closure net
    (flood_measure net (flood_init p) (flood_queue net p) + 1)
    (flood_init p) (flood_queue net p)
    (by
      constructor
      · intro f hf
        obtain ⟨y, hy, rfl⟩ := List.mem_map.mp hf
        exact List.mem_cons_self _ _
      · intro a ha y hy
        have hap : a = p := by simpa [flood_init] using ha
        subst hap
        exact Or.inr ⟨a, List.mem_map.mpr ⟨y, hy, rfl⟩⟩)
  intro a ha y hy
  rcases hinv.2 a ha y hy with hs | ⟨s, hs⟩
  · exact hs
  · rw [hdrain] at hs
    cases hs

theorem flood_publish_reaches_seen (net : List (PeerId × List PeerId))
    (p r : PeerId) (hreach : Reaches net p r) :
    r ∈ (flood_publish net p).seen := by
  induction hreach with
  | refl =>
      exact flood_run_seen_mono net _ (flood_init p) (flood_queue net p) p
        (List.mem_cons_self _ _)
  | step h1 h2 ih => exact flood_publish_seen_closed net p _ ih _ h2

/-- C1: the pubsub receive path deduplicates and floods.  A frame whose
identifier is already in the receiver's SeenCache is discarded silently (no
state change, no delivery event, no re-flood); otherwise the identifier is
inserted, exactly one delivery event is surfaced, and the message is
re-flooded to the receiver's whole partial view except the sender.
Consequently, after a publish at `p` is flooded to quiescence, every peer
receives at most one delivery of the message, and every peer reachable from
the publisher in the flood graph — even one containing cycles — other than
the publisher itself receives exactly one. -/
theorem flood_exactly_once (net : List (PeerId × List PeerId))
    (p r sender receiver : PeerId) (st : FloodState) (x : PeerId)
    (hreach : Reaches net p r) :
    (receiver ∈ st.seen → on_receive net sender receiver st = (st, [])) ∧
    (receiver ∉ st.seen →
      on_receive net sender receiver st =
        ({ seen := receiver :: st.seen, delivered := receiver :: st.delivered },
         ((topic_view net receiver).filter (fun q => decide (q ≠ sender))).map
           (fun q => (receiver, q)))) ∧
    (flood_publish net p).delivered.count x ≤ 1 ∧
    (r ≠ p → (flood_publish net p).delivered.count r = 1) := by
  refine ⟨on_receive_seen_case net sender receiver st,
          on_receive_unseen_case net sender receiver st, ?_, ?_⟩
  · exact List.nodup_iff_count_le_one.mp (flood_publish_nodup net p).1 x
  · intro hne
    have hiff := flood_run_seen_iff net p
      (flood_measure net (flood_init p) (flood_queue net p) + 1)
      (flood_init p) (flood_queue net p)
      (by intro x0; simp [flood_init]) r
    have hrseen := flood_publish_reaches_seen net p r hreach
    have hrdel : r ∈ (flood_publish net p).delivered := by
      rcases hiff.mp hrseen with hd | hp
      · exact hd
      · exact absurd hp hne
    exact List.count_eq_one_of_mem (flood_publish_nodup net p).1 hrdel

theorem flood_exactly_once_witness :
    Reaches cycle_net 0 2 ∧
    ((1 ∈ cycle_st.seen → on_receive cycle_net 0 1 cycle_st = (cycle_st, [])) ∧
     (1 ∉ cycle_st.seen →
       on_receive cycle_net 0 1 cycle_st =
         ({ seen := 1 :: cycle_st.seen, delivered := 1 :: cycle_st.delivered },
          ((topic_view cycle_net 1).filter (fun q => decide (q ≠ 0))).map
            (fun q => (1, q)))) ∧
     (flood_publish cycle_net 0).delivered.count 2 ≤ 1 ∧
     ((2 : PeerId) ≠ 0 → (flood_publish cycle_net 0).delivered.count 2 = 1)) :=
  have h : Reaches cycle_net 0 2 :=
    @Reaches.step cycle_net 0 1 2
      (@Reaches.step cycle_net 0 0 1 Reaches.refl (by decide)) (by decide)
  ⟨h, flood_exactly_once cycle_net 0 2 0 1 cycle_st 2 h⟩
